import Mathlib

/-!
Verification development for the FinPal personal-finance dashboard
(`src/main.py`).

The embedding below translates the program's data model and operations into
Lean:

* Python `dict` objects holding the category rules (`st.session_state.categories`)
  become association lists `RuleSet = List (String × List String)`; Python
  dict iteration order is insertion order, which the list order models, and
  dict keys are unique.
* A pandas `DataFrame` of transactions becomes `List Txn` (rows in order);
  a raw CSV row becomes `RawRow` with all fields as strings.
* Python string methods `.lower()`, `.strip()` and `.replace(",", "")`
  are modelled structurally over `String.data`; `.lower()` is modelled on
  its ASCII fragment (every string occurring in the program's rule files,
  CSV details and the claims is ASCII).
* Fallible steps (float conversion raising, `KeyError` on a missing dict
  key) are modelled with `Option`.
* `float` amounts are modelled as `ℚ`; every concrete amount appearing in
  the claims ("4.50", "2000.00", "1,234.50") is exactly representable in
  binary floating point, so the rational model agrees with the source on
  those values.
-/

/-- ASCII fragment of Python `str.lower` on a single character. -/
def pyLowerChar (c : Char) : Char :=
  if 'A' ≤ c ∧ c ≤ 'Z' then Char.ofNat (c.toNat + 32) else c

/-- Python `str.lower` (ASCII fragment). -/
def pyLower (s : String) : String := ⟨s.data.map pyLowerChar⟩

/-- Whitespace characters removed by Python `str.strip`. -/
def isSpaceChar (c : Char) : Bool :=
  c = ' ' || c = '\t' || c = '\n' || c = '\r' || c = '\x0b' || c = '\x0c'

/-- Python `str.strip`: drop whitespace from both ends. -/
def pyStrip (s : String) : String :=
  ⟨((s.data.dropWhile isSpaceChar).reverse.dropWhile isSpaceChar).reverse⟩

/-- The normalization `x.lower().strip()` applied by `categorize_transactions`
to both keywords and the `Details` field (src/main.py lines 53 and 57). -/
def normKw (s : String) : String := pyStrip (pyLower s)

/-- Python `s.replace(",", "")` used on the `Amount` column
(src/main.py line 83): removing every comma. -/
def stripCommas (s : String) : String := ⟨s.data.filter (fun c => c ≠ ',')⟩

/-- The category rule mapping `st.session_state.categories`: category name to
keyword list, in dict insertion order. -/
abbrev RuleSet : Type := List (String × List String)

/-- Calendar date produced by `pd.to_datetime`. -/
structure Date where
  year : ℕ
  month : ℕ
  day : ℕ
deriving DecidableEq, Repr

/-- One row of the working DataFrame after loading: typed columns
`Date`, `Details`, `Amount`, `Debit/Credit`, `Category`. -/
structure Txn where
  date : Date
  details : String
  amount : ℚ
  flow : String
  category : String
deriving DecidableEq, Repr

/-- One raw CSV row before cleaning: all four columns as strings. -/
structure RawRow where
  details : String
  amount : String
  date : String
  flow : String
deriving DecidableEq, Repr

/-- The inner loop of `categorize_transactions` (src/main.py lines 56-60):
for one category, set `Category` on every row whose normalized details is a
member of the category's lowered keyword list. -/
def assignCategory (catName : String) (lowered : List String) (df : List Txn) : List Txn :=
  df.map (fun t => if lowered.contains (normKw t.details) then { t with category := catName } else t)

/-- One step of the outer loop of `categorize_transactions` over the rule
set: skip the "Uncategorized" entry and entries with empty keyword lists,
otherwise run the row loop with the entry's lowered keywords. -/
def catStep (df : List Txn) (p : String × List String) : List Txn :=
  if p.1 = "Uncategorized" ∨ p.2 = [] then df
  else assignCategory p.1 (p.2.map normKw) df

/-- `categorize_transactions` (src/main.py lines 37-62): initialize every
row's `Category` to "Uncategorized", then iterate the rule set in insertion
order with `catStep`.  A later category's write overwrites an earlier one,
exactly as `df.at[idx, "Category"] = category` does in the source. -/
def categorize_transactions (cats : RuleSet) (df : List Txn) : List Txn :=
  cats.foldl catStep (df.map (fun t => { t with category := "Uncategorized" }))

/-- The effect of one rule-set entry on the category cell of a single row
with the given details string. -/
def rowStep (details : String) (acc : String) (p : String × List String) : String :=
  if p.1 = "Uncategorized" ∨ p.2 = [] then acc
  else if (p.2.map normKw).contains (normKw details) then p.1 else acc

/-- Per-row view of the categorizer: the category the double loop leaves on
a row with the given details string. -/
def rowCategory (cats : RuleSet) (details : String) : String :=
  cats.foldl (rowStep details) "Uncategorized"

/-- The rule-set entries whose keyword list matches the given details string:
entries other than "Uncategorized" whose normalized keyword list contains the
normalized details. -/
def matchingEntries (cats : RuleSet) (details : String) : List (String × List String) :=
  cats.filter (fun p => p.1 ≠ "Uncategorized" && (p.2.map normKw).contains (normKw details))

theorem Txn.update_category_self (t : Txn) : { t with category := t.category } = t := by
  cases t; rfl

theorem foldl_catStep_eq_map (cats : RuleSet) (df : List Txn) :
    cats.foldl catStep df
      = df.map (fun t => { t with category := cats.foldl (rowStep t.details) t.category }) := by
  induction cats generalizing df with
  | nil => simp [Txn.update_category_self]
  | cons p rest ih =>
    show rest.foldl catStep (catStep df p) = _
    by_cases h : p.1 = "Uncategorized" ∨ p.2 = []
    · rw [show catStep df p = df from by simp [catStep, h]]
      rw [ih df]
      refine List.map_congr_left (fun t _ => ?_)
      show _ = { t with category := List.foldl (rowStep t.details) (rowStep t.details t.category p) rest }
      rw [show rowStep t.details t.category p = t.category from by unfold rowStep; rw [if_pos h]]
    · rw [show catStep df p = assignCategory p.1 (p.2.map normKw) df from by simp [catStep, h]]
      rw [ih (assignCategory p.1 (p.2.map normKw) df)]
      unfold assignCategory
      rw [List.map_map]
      refine List.map_congr_left (fun t _ => ?_)
      show _ = { t with category := List.foldl (rowStep t.details) (rowStep t.details t.category p) rest }
      by_cases hc : (p.2.map normKw).contains (normKw t.details)
      · rw [Function.comp_apply, if_pos hc]
        rw [show rowStep t.details t.category p = p.1 from by unfold rowStep; rw [if_neg h, if_pos hc]]
      · rw [Function.comp_apply, if_neg hc]
        rw [show rowStep t.details t.category p = t.category from by unfold rowStep; rw [if_neg h, if_neg hc]]

/-- Bridge between the literal nested-loop categorizer and its per-row view. -/
theorem categorize_transactions_eq_map (cats : RuleSet) (df : List Txn) :
    categorize_transactions cats df
      = df.map (fun t => { t with category := rowCategory cats t.details }) := by
  unfold categorize_transactions rowCategory
  rw [foldl_catStep_eq_map, List.map_map]
  rfl

theorem foldl_rowStep_eq_getLastD (cats : RuleSet) (details : String) (init : String) :
    cats.foldl (rowStep details) init
      = ((matchingEntries cats details).map Prod.fst).getLastD init := by
  induction cats generalizing init with
  | nil => rfl
  | cons p rest ih =>
    show rest.foldl (rowStep details) (rowStep details init p) = _
    unfold matchingEntries
    rw [List.filter_cons]
    by_cases h1 : p.1 = "Uncategorized"
    · rw [show (decide (p.1 ≠ "Uncategorized")
            && (p.2.map normKw).contains (normKw details)) = false from by simp [h1]]
      rw [if_neg (by decide : ¬ (false = true))]
      rw [show rowStep details init p = init from by unfold rowStep; rw [if_pos (Or.inl h1)]]
      exact ih init
    · by_cases hc : (p.2.map normKw).contains (normKw details)
      · have hne : p.2 ≠ [] := by
          intro h2
          rw [h2] at hc
          simp at hc
        rw [show (decide (p.1 ≠ "Uncategorized")
              && (p.2.map normKw).contains (normKw details)) = true from by
            rw [hc, decide_eq_true h1, Bool.and_self]]
        rw [if_pos rfl]
        rw [List.map_cons, List.getLastD_cons]
        rw [show rowStep details init p = p.1 from by
          unfold rowStep
          rw [if_neg (by simp [h1, hne]), if_pos hc]]
        exact ih p.1
      · rw [show (decide (p.1 ≠ "Uncategorized")
              && (p.2.map normKw).contains (normKw details)) = false from by
            rw [Bool.eq_false_iff.mpr hc, Bool.and_false]]
        rw [if_neg (by decide : ¬ (false = true))]
        rw [show rowStep details init p = init from by
          by_cases h2 : p.2 = []
          · unfold rowStep; rw [if_pos (Or.inr h2)]
          · unfold rowStep; rw [if_neg (by simp [h1, h2]), if_neg hc]]
        exact ih init

/-- The per-row categorizer returns the name of the last matching rule-set
entry, or "Uncategorized" when no entry matches. -/
theorem rowCategory_eq_getLastD (cats : RuleSet) (details : String) :
    rowCategory cats details
      = ((matchingEntries cats details).map Prod.fst).getLastD "Uncategorized" :=
  foldl_rowStep_eq_getLastD cats details "Uncategorized"

/-- Digit string to a natural number; fails on the empty string or on any
non-digit character. -/
def digitsToNat (cs : List Char) : Option ℕ :=
  if cs ≠ [] ∧ cs.all Char.isDigit then
    some (cs.foldl (fun a c => a * 10 + (c.toNat - 48)) 0)
  else none

/-- Decimal representation recognized by the float conversion: after
stripping surrounding whitespace, an optional sign, then digits with at most
one decimal point, not both parts empty.  Returns (negative?, all digits as
one natural number, number of fractional digits). -/
def parseFloatRep (s : String) : Option (Bool × ℕ × ℕ) :=
  let cs := (pyStrip s).data
  let signed : Bool × List Char :=
    match cs with
    | '-' :: rest => (true, rest)
    | '+' :: rest => (false, rest)
    | _ => (false, cs)
  let body := signed.2
  match body.splitOn '.' with
  | [intPart] =>
    match digitsToNat intPart with
    | some n => some (signed.1, n, 0)
    | none => none
  | [intPart, fracPart] =>
    if intPart = [] ∧ fracPart = [] then none
    else if intPart.all Char.isDigit ∧ fracPart.all Char.isDigit then
      some (signed.1,
        (intPart.foldl (fun a c => a * 10 + (c.toNat - 48)) 0) * 10 ^ fracPart.length
          + fracPart.foldl (fun a c => a * 10 + (c.toNat - 48)) 0,
        fracPart.length)
    else none
  | _ => none

/-- Python `float(s)` on the decimal fragment exercised by this program
(`df["Amount"].astype(float)` after comma removal): the resulting rational
value, or failure (which `astype` raises as an exception). -/
def parseFloat (s : String) : Option ℚ :=
  (parseFloatRep s).map
    (fun r => (if r.1 then -1 else 1) * (r.2.1 : ℚ) / (10 : ℚ) ^ r.2.2)

/-- Month abbreviations recognized by the `%b` directive of
`pd.to_datetime` (C locale, case-insensitive as in `strptime`). -/
def monthAbbrevs : List String :=
  ["jan", "feb", "mar", "apr", "may", "jun", "jul", "aug", "sep", "oct", "nov", "dec"]

/-- Leap-year test used to validate the day of month. -/
def isLeap (y : ℕ) : Bool :=
  (y % 4 = 0 && y % 100 ≠ 0) || y % 400 = 0

/-- Number of days in a month, for day-of-month validation. -/
def daysInMonth (y m : ℕ) : ℕ :=
  if m = 2 then (if isLeap y then 29 else 28)
  else if m = 4 ∨ m = 6 ∨ m = 9 ∨ m = 11 then 30 else 31

/-- `pd.to_datetime(s, format="%d %b %Y")` on one cell: day (1-2 digits),
one space, month abbreviation, one space, four-digit year; the day must be
valid for the month.  Returns `none` where the source produces `NaT`
(because `errors="coerce"`). -/
def parseDate (s : String) : Option Date :=
  match s.data.splitOn ' ' with
  | [dayCs, monCs, yearCs] =>
    match digitsToNat dayCs, monthAbbrevs.indexOf? (pyLower ⟨monCs⟩), digitsToNat yearCs with
    | some d, some mIdx, some y =>
      if dayCs.length ∈ ([1, 2] : List ℕ) ∧ yearCs.length = 4
          ∧ 1 ≤ d ∧ d ≤ daysInMonth y (mIdx + 1) then
        some ⟨y, mIdx + 1, d⟩
      else none
    | _, _, _ => none
  | _ => none

/-- Column-wide fallible conversion, as `astype(float)` applies to a whole
pandas column: the first failure aborts everything with an exception. -/
def parseAll {α β : Type} (f : α → Option β) : List α → Option (List β)
  | [] => some []
  | a :: l =>
    match f a, parseAll f l with
    | some b, some bs => some (b :: bs)
    | _, _ => none

/-- `load_transactions` (src/main.py lines 65-98): convert the whole
`Amount` column (comma removal then float conversion; any failure raises,
is caught, and the function returns `None`), then parse the `Date` column
with `errors="coerce"` and drop the rows whose date failed to parse, and
finally run `categorize_transactions` on what remains.  The `Category`
column starts empty and is written by the categorizer. -/
def load_transactions (cats : RuleSet) (rows : List RawRow) : Option (List Txn) :=
  match parseAll (fun r => parseFloat (stripCommas r.amount)) rows with
  | none => none
  | some amounts =>
    let withAmount := rows.zip amounts
    let kept := withAmount.filterMap
      (fun ra => (parseDate ra.1.date).map
        (fun d => Txn.mk d ra.1.details ra.2 ra.1.flow ""))
    some (categorize_transactions cats kept)

/-- The session state relevant to the category store: the in-memory rule
set `st.session_state.categories` and the contents of `categories.json`
(`none` when the file does not exist). -/
structure Store where
  categories : RuleSet
  file : Option RuleSet
deriving DecidableEq

/-- The initial value given to `st.session_state.categories`
(src/main.py lines 19-20). -/
def initialCategories : RuleSet := [("Uncategorized", [])]

/-- Startup loading (src/main.py lines 19-25): the rule set is the default
when `categories.json` does not exist, and the file's contents verbatim
when it does. -/
def loadCategories (file : Option RuleSet) : RuleSet :=
  match file with
  | none => initialCategories
  | some rs => rs

/-- `save_categories` (src/main.py lines 28-34): write the in-memory rule
set to `categories.json`. -/
def save_categories (s : Store) : Store :=
  { s with file := some s.categories }

/-- Keys of a rule set, in insertion order. -/
def catKeys (cats : RuleSet) : List String := cats.map Prod.fst

/-- Python `categories[category]` read: value of the first (unique) entry
with the given key, `none` when the key is missing (a `KeyError`). -/
def lookupCat (cats : RuleSet) (category : String) : Option (List String) :=
  (cats.find? (fun p => p.1 = category)).map Prod.snd

/-- Python `categories[category] = v` on an existing key: replace the value
in place, keeping insertion order. -/
def setCat (cats : RuleSet) (category : String) (v : List String) : RuleSet :=
  cats.map (fun p => if p.1 = category then (p.1, v) else p)

/-- The "Add Category" handler (src/main.py lines 184-189) on a non-empty
name: insert the name with an empty keyword list when absent (new dict keys
go to the end of the iteration order) and persist; no-op when present. -/
def add_category (s : Store) (name : String) : Store :=
  if (catKeys s.categories).contains name then s
  else save_categories { s with categories := s.categories ++ ([(name, [])] : RuleSet) }

/-- `add_keyword_to_category` (src/main.py lines 101-114): strip the
keyword; when it is non-empty and not already in the category's list
(exact string comparison), append it, persist, and return `True`,
otherwise return `False`.  `none` models the `KeyError` raised when the
category is not a key of the dict. -/
def add_keyword_to_category (s : Store) (category keyword : String) : Option (Store × Bool) :=
  let kw := pyStrip keyword
  match lookupCat s.categories category with
  | none => none
  | some kws =>
    if kw ≠ "" ∧ ¬ kws.contains kw then
      some (save_categories { s with categories := setCat s.categories category (kws ++ [kw]) }, true)
    else some (s, false)

/-- The "Apply Changes" loop (src/main.py lines 211-221): walk the edited
rows in order with their aligned stored rows; skip rows whose edited
category equals the stored one; otherwise write the edited category into
the stored row and add the edited row's details as a keyword of the new
category.  `none` models the `KeyError` raised when an edited category is
not a key of the rule set; stored rows beyond the edited rows are kept
unchanged. -/
def applyChanges (s : Store) (stored : List Txn) (edited : List (String × String)) :
    Option (Store × List Txn) :=
  match stored, edited with
  | ts, [] => some (s, ts)
  | [], _ :: _ => none
  | t :: ts, e :: es =>
    if e.2 = t.category then
      match applyChanges s ts es with
      | none => none
      | some r => some (r.1, t :: r.2)
    else
      match add_keyword_to_category s e.2 e.1 with
      | none => none
      | some r1 =>
        match applyChanges r1.1 ts es with
        | none => none
        | some r => some (r.1, { t with category := e.2 } :: r.2)

/-- The Debit subset `df[df["Debit/Credit"] == "Debit"]`
(src/main.py line 146). -/
def debitsOf (df : List Txn) : List Txn := df.filter (fun t => t.flow = "Debit")

/-- The Credit subset `df[df["Debit/Credit"] == "Credit"]`
(src/main.py line 147). -/
def creditsOf (df : List Txn) : List Txn := df.filter (fun t => t.flow = "Credit")

/-- `debits_df["Amount"].sum()` (src/main.py line 154). -/
def total_debits (df : List Txn) : ℚ := ((debitsOf df).map Txn.amount).sum

/-- `credits_df["Amount"].sum()` (src/main.py line 155). -/
def total_credits (df : List Txn) : ℚ := ((creditsOf df).map Txn.amount).sum

/-- `net_cash_flow = total_credits - total_debits` (src/main.py line 156). -/
def net_cash_flow (df : List Txn) : ℚ := total_credits df - total_debits df

theorem categorize_details_eq (cats : RuleSet) (df : List Txn) :
    (categorize_transactions cats df).map Txn.details = df.map Txn.details := by
  rw [categorize_transactions_eq_map, List.map_map]
  rfl

theorem categorize_length_eq (cats : RuleSet) (df : List Txn) :
    (categorize_transactions cats df).length = df.length := by
  rw [categorize_transactions_eq_map, List.length_map]

theorem categorize_getElem_category (cats : RuleSet) (df : List Txn) (i : ℕ) (t : Txn)
    (ht : df[i]? = some t) :
    ((categorize_transactions cats df)[i]?).map Txn.category
      = some (((matchingEntries cats t.details).map Prod.fst).getLastD "Uncategorized") := by
  rw [categorize_transactions_eq_map, List.getElem?_map, ht]
  simp [rowCategory_eq_getLastD]

/-- C9: `categorize_transactions` modifies only the `Category` column: the
output has the same number of rows in the same order, with `Date`,
`Details`, `Amount` and `Debit/Credit` values identical to the input's. -/
theorem categorize_transactions_frame (cats : RuleSet) (df : List Txn) :
    (categorize_transactions cats df).length = df.length
    ∧ (categorize_transactions cats df).map (fun t => (t.date, t.details, t.amount, t.flow))
        = df.map (fun t => (t.date, t.details, t.amount, t.flow)) := by
  refine ⟨categorize_length_eq cats df, ?_⟩
  rw [categorize_transactions_eq_map, List.map_map]
  rfl

/-- C1 counterexample: with the rule set [("A", ["x"]), ("B", ["x"])] (both
keyword sets contain the details "x" of the only transaction), the code
assigns "B", the category appearing later in insertion order, not the
earliest one "A" as the claim states: the assignment loop overwrites an
already-assigned match. -/
theorem first_match_counterexample :
    ((categorize_transactions [("A", ["x"]), ("B", ["x"])]
        [⟨⟨2024, 1, 1⟩, "x", 1, "Debit", ""⟩]).map Txn.category) = ["B"]
    ∧ ("B" : String) ≠ "A" := by
  constructor
  · rfl
  · decide

/-- C1 (amended): for every rule set and every transaction, the category
left on a row is the one of the LATEST entry in insertion order (other than
"Uncategorized") whose normalized keyword list contains the row's
normalized details, and "Uncategorized" when no entry matches; a later
matching category overrides an earlier assignment in the single pass. -/
theorem categorize_last_match_wins (cats : RuleSet) (df : List Txn) (i : ℕ) (t : Txn)
    (ht : df[i]? = some t) :
    ((categorize_transactions cats df)[i]?).map Txn.category
      = some (((matchingEntries cats t.details).map Prod.fst).getLastD "Uncategorized") :=
  categorize_getElem_category cats df i t ht

theorem categorize_last_match_wins_witness :
    ((categorize_transactions [("A", ["x"]), ("B", ["x"])]
        [⟨⟨2024, 1, 1⟩, "x", 1, "Debit", ""⟩])[0]?).map Txn.category = some "B" := by
  rw [categorize_last_match_wins [("A", ["x"]), ("B", ["x"])]
      [⟨⟨2024, 1, 1⟩, "x", 1, "Debit", ""⟩] 0 ⟨⟨2024, 1, 1⟩, "x", 1, "Debit", ""⟩ rfl]
  decide

/-- C4: for every rule set and every transaction of the frame: if the
transaction's normalized details occurs in the normalized keyword list of
exactly one rule-set entry other than "Uncategorized" (the list
`matchingEntries` is a singleton), the categorizer assigns that entry's
category; if it occurs in none, the assigned category is "Uncategorized". -/
theorem categorize_unique_match (cats : RuleSet) (df : List Txn) (i : ℕ) (t : Txn)
    (ht : df[i]? = some t) :
    (∀ c kws, matchingEntries cats t.details = [(c, kws)] →
        ((categorize_transactions cats df)[i]?).map Txn.category = some c)
    ∧ (matchingEntries cats t.details = [] →
        ((categorize_transactions cats df)[i]?).map Txn.category = some "Uncategorized") := by
  constructor
  · intro c kws hm
    rw [categorize_getElem_category cats df i t ht, hm]
    rfl
  · intro hm
    rw [categorize_getElem_category cats df i t ht, hm]
    rfl

theorem categorize_unique_match_witness :
    ((categorize_transactions [("Food", ["coffee shop"])]
        [⟨⟨2024, 1, 1⟩, "Coffee Shop", 1, "Debit", ""⟩])[0]?).map Txn.category = some "Food"
    ∧ ((categorize_transactions [("Food", ["coffee shop"])]
        [⟨⟨2024, 1, 1⟩, "Employer", 1, "Credit", ""⟩])[0]?).map Txn.category
      = some "Uncategorized" := by
  constructor
  · exact (categorize_unique_match [("Food", ["coffee shop"])]
      [⟨⟨2024, 1, 1⟩, "Coffee Shop", 1, "Debit", ""⟩] 0
      ⟨⟨2024, 1, 1⟩, "Coffee Shop", 1, "Debit", ""⟩ rfl).1 "Food" ["coffee shop"] (by decide)
  · exact (categorize_unique_match [("Food", ["coffee shop"])]
      [⟨⟨2024, 1, 1⟩, "Employer", 1, "Credit", ""⟩] 0
      ⟨⟨2024, 1, 1⟩, "Employer", 1, "Credit", ""⟩ rfl).2 (by decide)

theorem catKeys_setCat (cats : RuleSet) (c : String) (v : List String) :
    catKeys (setCat cats c v) = catKeys cats := by
  unfold catKeys setCat
  rw [List.map_map]
  refine List.map_congr_left (fun p _ => ?_)
  by_cases h : p.1 = c <;> simp [h]

theorem foldl_rowStep_setCatUnc (cats : RuleSet) (kws : List String) (d : String) (init : String) :
    (setCat cats "Uncategorized" kws).foldl (rowStep d) init = cats.foldl (rowStep d) init := by
  induction cats generalizing init with
  | nil => rfl
  | cons p rest ih =>
    show (setCat rest "Uncategorized" kws).foldl (rowStep d)
        (rowStep d init (if p.1 = "Uncategorized" then (p.1, kws) else p))
      = rest.foldl (rowStep d) (rowStep d init p)
    by_cases h : p.1 = "Uncategorized"
    · rw [if_pos h]
      rw [show rowStep d init (p.1, kws) = init from by unfold rowStep; rw [if_pos (Or.inl h)]]
      rw [show rowStep d init p = init from by unfold rowStep; rw [if_pos (Or.inl h)]]
      exact ih init
    · rw [if_neg h]
      exact ih (rowStep d init p)

theorem categorize_setCat_uncategorized (cats : RuleSet) (kws : List String) (df : List Txn) :
    categorize_transactions (setCat cats "Uncategorized" kws) df
      = categorize_transactions cats df := by
  rw [categorize_transactions_eq_map, categorize_transactions_eq_map]
  refine List.map_congr_left (fun t _ => ?_)
  rw [show rowCategory (setCat cats "Uncategorized" kws) t.details
      = rowCategory cats t.details from foldl_rowStep_setCatUnc cats kws t.details "Uncategorized"]

theorem add_keyword_catKeys (s : Store) (c k : String) (s' : Store) (b : Bool)
    (h : add_keyword_to_category s c k = some (s', b)) :
    catKeys s'.categories = catKeys s.categories := by
  simp only [add_keyword_to_category] at h
  cases hl : lookupCat s.categories c with
  | none => rw [hl] at h; exact absurd h (by simp)
  | some kws =>
    rw [hl] at h
    have h2 : (if pyStrip k ≠ "" ∧ ¬ kws.contains (pyStrip k) then
          (some (save_categories { s with categories := setCat s.categories c (kws ++ [pyStrip k]) },
            true) : Option (Store × Bool))
        else some (s, false)) = some (s', b) := h
    by_cases hc : pyStrip k ≠ "" ∧ ¬ kws.contains (pyStrip k)
    · rw [if_pos hc] at h2
      simp only [Option.some.injEq, Prod.mk.injEq] at h2
      rw [← h2.1]
      exact catKeys_setCat s.categories c (kws ++ [pyStrip k])
    · rw [if_neg hc] at h2
      simp only [Option.some.injEq, Prod.mk.injEq] at h2
      rw [← h2.1]

/-- C2 counterexample: when the rule file exists but its contents lack the
"Uncategorized" key, startup loading takes the file verbatim and the key is
absent afterward, contradicting the claim that the key is present after
load whether or not the rule file exists. -/
theorem uncategorized_after_load_counterexample :
    "Uncategorized" ∉ catKeys (loadCategories (some [("Food", [])])) := by
  decide

/-- C2 (amended): the "Uncategorized" key is present in the initial default
and after startup loading when the rule file is absent; when the file
exists, loading takes its contents verbatim, so the key is present exactly
when the file contains it — in particular it is present after loading any
file written by `save_categories` from a state whose rule set contains the
key; the key is preserved by `add_category` and `add_keyword_to_category`;
and the categorizer never matches transactions against the "Uncategorized"
entry: replacing that entry's keyword list never changes the categorizer's
output (the key is only the fallback). -/
theorem uncategorized_invariant (s : Store) (name cat kw : String) (s' : Store) (b : Bool)
    (cats : RuleSet) (kws : List String) (df : List Txn) :
    "Uncategorized" ∈ catKeys initialCategories
    ∧ loadCategories none = initialCategories
    ∧ (∀ rs : RuleSet, loadCategories (some rs) = rs)
    ∧ ("Uncategorized" ∈ catKeys s.categories →
        "Uncategorized" ∈ catKeys (loadCategories (save_categories s).file))
    ∧ ("Uncategorized" ∈ catKeys s.categories →
        "Uncategorized" ∈ catKeys (add_category s name).categories)
    ∧ (add_keyword_to_category s cat kw = some (s', b) →
        "Uncategorized" ∈ catKeys s.categories → "Uncategorized" ∈ catKeys s'.categories)
    ∧ categorize_transactions (setCat cats "Uncategorized" kws) df
        = categorize_transactions cats df := by
  refine ⟨by decide, rfl, fun rs => rfl, fun h => h, ?_, ?_, categorize_setCat_uncategorized cats kws df⟩
  · intro h
    unfold add_category
    by_cases hc : (catKeys s.categories).contains name
    · rw [if_pos hc]; exact h
    · rw [if_neg hc]
      show "Uncategorized" ∈ catKeys (s.categories ++ [(name, [])])
      unfold catKeys
      rw [List.map_append]
      exact List.mem_append_left _ h
  · intro hk h
    rw [add_keyword_catKeys s cat kw s' b hk]
    exact h

theorem uncategorized_invariant_witness :
    "Uncategorized" ∈ catKeys
        (add_category ⟨[("Uncategorized", []), ("Food", [])], none⟩ "Travel").categories
    ∧ "Uncategorized" ∈ catKeys
        (⟨[("Uncategorized", []), ("Food", ["coffee"])],
          some [("Uncategorized", []), ("Food", ["coffee"])]⟩ : Store).categories := by
  constructor
  · exact (uncategorized_invariant ⟨[("Uncategorized", []), ("Food", [])], none⟩
      "Travel" "" "" ⟨[], none⟩ false [] [] []).2.2.2.2.1 (by decide)
  · exact (uncategorized_invariant ⟨[("Uncategorized", []), ("Food", [])], none⟩
      "x" "Food" "coffee"
      ⟨[("Uncategorized", []), ("Food", ["coffee"])],
        some [("Uncategorized", []), ("Food", ["coffee"])]⟩ true
      [] [] []).2.2.2.2.2.1 (by decide) (by decide)

theorem lookupCat_cons_ne (p : String × List String) (rest : RuleSet) (c : String)
    (hp : ¬ p.1 = c) : lookupCat (p :: rest) c = lookupCat rest c := by
  unfold lookupCat
  rw [List.find?_cons_of_neg _ (by simp [hp])]

theorem lookupCat_setCat_self (cats : RuleSet) (c : String) (v : List String)
    (h : (lookupCat cats c).isSome) : lookupCat (setCat cats c v) c = some v := by
  induction cats with
  | nil => simp [lookupCat] at h
  | cons p rest ih =>
    show lookupCat ((if p.1 = c then (p.1, v) else p) :: setCat rest c v) c = some v
    by_cases hp : p.1 = c
    · rw [if_pos hp]
      unfold lookupCat
      rw [List.find?_cons_of_pos _ (by simp [hp])]
      rfl
    · rw [if_neg hp]
      rw [lookupCat_cons_ne _ _ _ hp]
      rw [lookupCat_cons_ne _ _ _ hp] at h
      exact ih h

theorem lookupCat_setCat_ne (cats : RuleSet) (c c' : String) (v : List String)
    (h : ¬ c' = c) : lookupCat (setCat cats c v) c' = lookupCat cats c' := by
  induction cats with
  | nil => rfl
  | cons p rest ih =>
    show lookupCat ((if p.1 = c then (p.1, v) else p) :: setCat rest c v) c' = _
    by_cases hp : p.1 = c
    · rw [if_pos hp]
      have hne : ¬ p.1 = c' := by rw [hp]; exact fun hh => h hh.symm
      rw [lookupCat_cons_ne (p.1, v) _ _ hne, lookupCat_cons_ne p rest c' hne]
      exact ih
    · rw [if_neg hp]
      by_cases hq : p.1 = c'
      · unfold lookupCat
        rw [List.find?_cons_of_pos _ (by simp [hq]), List.find?_cons_of_pos _ (by simp [hq])]
      · rw [lookupCat_cons_ne _ _ _ hq, lookupCat_cons_ne _ _ _ hq]
        exact ih

theorem add_keyword_unfold (s : Store) (category keyword : String) (kws : List String)
    (h : lookupCat s.categories category = some kws) :
    add_keyword_to_category s category keyword
      = (if pyStrip keyword ≠ "" ∧ ¬ kws.contains (pyStrip keyword) then
          (some (save_categories
              { s with categories := setCat s.categories category (kws ++ [pyStrip keyword]) },
            true) : Option (Store × Bool))
        else some (s, false)) := by
  simp only [add_keyword_to_category]
  rw [h]

theorem add_keyword_noop_eq (s : Store) (category keyword : String) (kws : List String)
    (h : lookupCat s.categories category = some kws)
    (hd : pyStrip keyword = "" ∨ kws.contains (pyStrip keyword)) :
    add_keyword_to_category s category keyword = some (s, false) := by
  rw [add_keyword_unfold s category keyword kws h]
  rw [if_neg (fun hc => by
    rcases hd with hd | hd
    · exact hc.1 hd
    · exact hc.2 hd)]

theorem add_keyword_append_eq (s : Store) (category keyword : String) (kws : List String)
    (h : lookupCat s.categories category = some kws)
    (hkw : pyStrip keyword ≠ "") (habs : ¬ kws.contains (pyStrip keyword)) :
    add_keyword_to_category s category keyword
      = some (save_categories
          { s with categories := setCat s.categories category (kws ++ [pyStrip keyword]) },
        true) := by
  rw [add_keyword_unfold s category keyword kws h]
  rw [if_pos ⟨hkw, habs⟩]

/-- C5: `add_keyword_to_category` strips the keyword; it is a no-op
returning False when the stripped keyword is empty or already present
(exact string comparison) in the category's list, and otherwise appends it,
persists (writes the new rule set to the file) and returns True; hence it
is idempotent: starting from a list not containing the stripped keyword,
the first call stores exactly one copy and the second call with the same
pair is a no-op returning False. -/
theorem add_keyword_spec (s : Store) (category keyword : String) (kws : List String)
    (h : lookupCat s.categories category = some kws) :
    (pyStrip keyword = "" ∨ kws.contains (pyStrip keyword) →
        add_keyword_to_category s category keyword = some (s, false))
    ∧ (pyStrip keyword ≠ "" → ¬ kws.contains (pyStrip keyword) →
        add_keyword_to_category s category keyword
          = some (save_categories
              { s with categories := setCat s.categories category (kws ++ [pyStrip keyword]) },
            true))
    ∧ (pyStrip keyword ≠ "" → ¬ kws.contains (pyStrip keyword) →
        ∀ s₁ : Store, add_keyword_to_category s category keyword = some (s₁, true) →
          lookupCat s₁.categories category = some (kws ++ [pyStrip keyword])
          ∧ (kws ++ [pyStrip keyword]).count (pyStrip keyword) = 1
          ∧ s₁.file = some s₁.categories
          ∧ add_keyword_to_category s₁ category keyword = some (s₁, false)) := by
  refine ⟨add_keyword_noop_eq s category keyword kws h,
    add_keyword_append_eq s category keyword kws h, ?_⟩
  intro hkw habs s₁ hs₁
  rw [add_keyword_append_eq s category keyword kws h hkw habs] at hs₁
  simp only [Option.some.injEq, Prod.mk.injEq] at hs₁
  have hcat : s₁.categories = setCat s.categories category (kws ++ [pyStrip keyword]) := by
    rw [← hs₁.1]
    rfl
  have hlook : lookupCat s₁.categories category = some (kws ++ [pyStrip keyword]) := by
    rw [hcat]
    exact lookupCat_setCat_self s.categories category _ (by rw [h]; rfl)
  refine ⟨hlook, ?_, ?_, ?_⟩
  · rw [List.count_append]
    rw [List.count_eq_zero.mpr (fun hm => habs (List.elem_iff.mpr hm))]
    simp
  · rw [← hs₁.1]
    rfl
  · exact add_keyword_noop_eq s₁ category keyword (kws ++ [pyStrip keyword]) hlook
      (Or.inr (List.elem_iff.mpr (List.mem_append_right kws (List.mem_singleton.mpr rfl))))

theorem add_keyword_spec_witness :
    add_keyword_to_category ⟨[("Food", [])], none⟩ "Food" " coffee shop "
      = some (⟨[("Food", ["coffee shop"])], some [("Food", ["coffee shop"])]⟩, true)
    ∧ add_keyword_to_category
        ⟨[("Food", ["coffee shop"])], some [("Food", ["coffee shop"])]⟩ "Food" " coffee shop "
      = some (⟨[("Food", ["coffee shop"])], some [("Food", ["coffee shop"])]⟩, false)
    ∧ (["coffee shop"] : List String).count "coffee shop" = 1 := by
  refine ⟨?_, ?_, by decide⟩
  · rw [(add_keyword_spec ⟨[("Food", [])], none⟩ "Food" " coffee shop " []
      (by decide)).2.1 (by decide) (by decide)]
    decide
  · exact (add_keyword_spec ⟨[("Food", ["coffee shop"])], some [("Food", ["coffee shop"])]⟩
      "Food" " coffee shop " ["coffee shop"] (by decide)).1 (Or.inr (by decide))

/-- C10: the duplicate check of `add_keyword_to_category` is exact-string
(case-sensitive) after stripping: whenever the stripped keyword is
non-empty and not literally present in the category's list, the call
returns True and appends it — even when the list already holds a different
string with the same normalization — and a list without duplicate stored
strings stays without duplicates. -/
theorem add_keyword_case_sensitive (s : Store) (category keyword : String) (kws : List String)
    (h : lookupCat s.categories category = some kws)
    (hkw : pyStrip keyword ≠ "") (habs : ¬ kws.contains (pyStrip keyword)) :
    (∃ s₁ : Store, add_keyword_to_category s category keyword = some (s₁, true)
        ∧ lookupCat s₁.categories category = some (kws ++ [pyStrip keyword]))
    ∧ (kws.Nodup → (kws ++ [pyStrip keyword]).Nodup) := by
  constructor
  · refine ⟨save_categories
        { s with categories := setCat s.categories category (kws ++ [pyStrip keyword]) },
      add_keyword_append_eq s category keyword kws h hkw habs, ?_⟩
    exact lookupCat_setCat_self s.categories category _ (by rw [h]; rfl)
  · intro hnd
    refine List.Nodup.append hnd (List.nodup_singleton _) ?_
    intro a ha hb
    rw [List.mem_singleton.mp hb] at ha
    exact habs (List.elem_iff.mpr ha)

theorem add_keyword_case_sensitive_witness :
    (∃ s₁ : Store,
        add_keyword_to_category ⟨[("Food", ["coffee shop"])], none⟩ "Food" "Coffee Shop"
          = some (s₁, true)
        ∧ lookupCat s₁.categories "Food" = some ["coffee shop", "Coffee Shop"])
    ∧ (["coffee shop", "Coffee Shop"] : List String).Nodup
    ∧ normKw "Coffee Shop" = normKw "coffee shop"
    ∧ ("Coffee Shop" : String) ≠ "coffee shop" := by
  have H := add_keyword_case_sensitive ⟨[("Food", ["coffee shop"])], none⟩ "Food" "Coffee Shop"
    ["coffee shop"] (by decide) (by decide) (by decide)
  exact ⟨H.1, H.2 (by decide), by decide, by decide⟩

theorem load_transactions_eq (cats : RuleSet) (rows : List RawRow) :
    load_transactions cats rows
      = match parseAll (fun r => parseFloat (stripCommas r.amount)) rows with
        | none => none
        | some amounts =>
          some (categorize_transactions cats ((rows.zip amounts).filterMap
            (fun ra => (parseDate ra.1.date).map
              (fun d => Txn.mk d ra.1.details ra.2 ra.1.flow "")))) := rfl

theorem parseAll_eq_none {α β : Type} (f : α → Option β) (l : List α) (a : α)
    (ha : a ∈ l) (hf : f a = none) : parseAll f l = none := by
  induction l with
  | nil => cases ha
  | cons x xs ih =>
    rcases List.mem_cons.mp ha with rfl | ha'
    · show (match f a, parseAll f xs with
        | some b, some bs => some (b :: bs) | _, _ => none) = none
      rw [hf]
    · show (match f x, parseAll f xs with
        | some b, some bs => some (b :: bs) | _, _ => none) = none
      rw [ih ha']
      cases f x <;> rfl

theorem parseAll_isSome {α β : Type} (f : α → Option β) (l : List α)
    (h : ∀ a ∈ l, (f a).isSome) : (parseAll f l).isSome := by
  induction l with
  | nil => rfl
  | cons x xs ih =>
    obtain ⟨b, hb⟩ := Option.isSome_iff_exists.mp (h x (List.mem_cons_self x xs))
    obtain ⟨bs, hbs⟩ := Option.isSome_iff_exists.mp
      (ih (fun a ha => h a (List.mem_cons_of_mem x ha)))
    show (match f x, parseAll f xs with
      | some b, some bs => some (b :: bs) | _, _ => none).isSome
    rw [hb, hbs]
    rfl

theorem parseAll_cons_some {α β : Type} (f : α → Option β) (x : α) (xs : List α)
    (l' : List β) (h : parseAll f (x :: xs) = some l') :
    ∃ b bs, f x = some b ∧ parseAll f xs = some bs ∧ l' = b :: bs := by
  simp only [parseAll] at h
  cases hx : f x with
  | none =>
    rw [hx] at h
    exact Option.noConfusion h
  | some b =>
    rw [hx] at h
    cases hxs : parseAll f xs with
    | none =>
      rw [hxs] at h
      exact Option.noConfusion h
    | some bs =>
      rw [hxs] at h
      exact ⟨b, bs, rfl, rfl, (Option.some.inj h).symm⟩

theorem parseAll_length {α β : Type} (f : α → Option β) :
    ∀ (l : List α) (l' : List β), parseAll f l = some l' → l.length = l'.length := by
  intro l
  induction l with
  | nil =>
    intro l' h
    rw [show l' = [] from (Option.some.inj h).symm]
    rfl
  | cons x xs ih =>
    intro l' h
    obtain ⟨b, bs, _, hbs, rfl⟩ := parseAll_cons_some f x xs l' h
    simp [ih bs hbs]

theorem kept_details_eq (rows : List RawRow) (amts : List ℚ)
    (hlen : rows.length = amts.length) :
    ((rows.zip amts).filterMap
        (fun ra => (parseDate ra.1.date).map
          (fun d => Txn.mk d ra.1.details ra.2 ra.1.flow ""))).map Txn.details
      = (rows.filter (fun r => (parseDate r.date).isSome)).map RawRow.details := by
  induction rows generalizing amts with
  | nil => rfl
  | cons r rs ih =>
    cases amts with
    | nil => simp at hlen
    | cons a as =>
      have h' : rs.length = as.length := by simpa using hlen
      rw [List.zip_cons_cons, List.filterMap_cons, List.filter_cons]
      cases hd : parseDate r.date with
      | none => simp [hd, ih as h']
      | some d => simp [hd, ih as h']

/-- C6: any row whose Amount field (after comma removal) fails the float
conversion fails the whole load (the function returns no transaction list
at all); when every Amount parses the load succeeds; and "1,234.50" parses
to the amount 1234.50. -/
theorem load_amount_column_failure (cats : RuleSet) (rows : List RawRow) :
    ((∃ r ∈ rows, parseFloat (stripCommas r.amount) = none) →
        load_transactions cats rows = none)
    ∧ ((∀ r ∈ rows, (parseFloat (stripCommas r.amount)).isSome) →
        (load_transactions cats rows).isSome)
    ∧ parseFloat (stripCommas "1,234.50") = some (1234.50 : ℚ) := by
  refine ⟨?_, ?_, ?_⟩
  · rintro ⟨r, hr, hf⟩
    have hnone : parseAll (fun r => parseFloat (stripCommas r.amount)) rows = none :=
      @parseAll_eq_none RawRow ℚ (fun r => parseFloat (stripCommas r.amount)) rows r hr hf
    rw [load_transactions_eq, hnone]
  · intro h
    have hsome : (parseAll (fun r => parseFloat (stripCommas r.amount)) rows).isSome :=
      @parseAll_isSome RawRow ℚ (fun r => parseFloat (stripCommas r.amount)) rows h
    obtain ⟨amts, hamts⟩ := Option.isSome_iff_exists.mp hsome
    rw [load_transactions_eq, hamts]
    rfl
  · simp only [parseFloat]
    rw [show parseFloatRep (stripCommas "1,234.50") = some (false, 123450, 2) from by decide]
    simp
    norm_num

theorem load_amount_column_failure_witness :
    load_transactions [("Uncategorized", [])]
        [⟨"Coffee", "abc", "01 Jan 2024", "Debit"⟩] = none
    ∧ (load_transactions [("Uncategorized", [])]
        [⟨"Coffee", "1,234.50", "01 Jan 2024", "Debit"⟩]).isSome := by
  constructor
  · exact (load_amount_column_failure [("Uncategorized", [])]
      [⟨"Coffee", "abc", "01 Jan 2024", "Debit"⟩]).1
      ⟨⟨"Coffee", "abc", "01 Jan 2024", "Debit"⟩, List.mem_singleton.mpr rfl, by decide⟩
  · exact (load_amount_column_failure [("Uncategorized", [])]
      [⟨"Coffee", "1,234.50", "01 Jan 2024", "Debit"⟩]).2.1 (by decide)

/-- C7: when every Amount parses, rows whose Date field does not parse in
the `day month-abbrev year` format are dropped from the load result while
every row with a parsable date is retained in order, without failing the
load; "05 Jan 2024" parses and "2024-01-05" does not. -/
theorem load_drops_unparsable_dates (cats : RuleSet) (rows : List RawRow)
    (h : ∀ r ∈ rows, (parseFloat (stripCommas r.amount)).isSome) :
    (∃ ts, load_transactions cats rows = some ts
      ∧ ts.map Txn.details = (rows.filter (fun r => (parseDate r.date).isSome)).map RawRow.details
      ∧ ts.length = (rows.filter (fun r => (parseDate r.date).isSome)).length)
    ∧ parseDate "05 Jan 2024" = some ⟨2024, 1, 5⟩
    ∧ parseDate "2024-01-05" = none := by
  refine ⟨?_, by decide, by decide⟩
  have hsome : (parseAll (fun r => parseFloat (stripCommas r.amount)) rows).isSome :=
    @parseAll_isSome RawRow ℚ (fun r => parseFloat (stripCommas r.amount)) rows h
  obtain ⟨amts, hamts⟩ := Option.isSome_iff_exists.mp hsome
  have hlen : rows.length = amts.length :=
    @parseAll_length RawRow ℚ (fun r => parseFloat (stripCommas r.amount)) rows amts hamts
  have hload : load_transactions cats rows
      = some (categorize_transactions cats ((rows.zip amts).filterMap
          (fun ra => (parseDate ra.1.date).map
            (fun d => Txn.mk d ra.1.details ra.2 ra.1.flow "")))) := by
    rw [load_transactions_eq, hamts]
  refine ⟨_, hload, ?_, ?_⟩
  · rw [categorize_details_eq, kept_details_eq rows amts hlen]
  · have h1 := congrArg List.length (kept_details_eq rows amts hlen)
    rw [List.length_map, List.length_map] at h1
    rw [categorize_length_eq, h1]

theorem load_drops_unparsable_dates_witness :
    ∃ ts, load_transactions [("Uncategorized", [])]
        [⟨"Coffee Shop", "4.50", "05 Jan 2024", "Debit"⟩,
         ⟨"Bad Row", "5.00", "2024-01-05", "Debit"⟩] = some ts
      ∧ ts.map Txn.details = ["Coffee Shop"]
      ∧ ts.length = 1 := by
  obtain ⟨⟨ts, h1, h2, h3⟩, _, _⟩ := load_drops_unparsable_dates [("Uncategorized", [])]
    [⟨"Coffee Shop", "4.50", "05 Jan 2024", "Debit"⟩,
     ⟨"Bad Row", "5.00", "2024-01-05", "Debit"⟩] (by decide)
  refine ⟨ts, h1, ?_, ?_⟩
  · rw [h2]; decide
  · rw [h3]; decide

/-- C8: total Debit is the sum of Amount over transactions with flow
"Debit", total Credit the sum over flow "Credit", and net cash flow is
total Credit minus total Debit; on the two-row example CSV with rule set
[("Food", ["coffee shop"])], the Debit subset has exactly the "Coffee Shop"
row categorized "Food", total Debit is 4.50, total Credit is 2000.00 and
net cash flow is 1995.50. -/
theorem totals_and_net_example :
    (∀ df : List Txn,
        total_debits df = ((df.filter (fun t => t.flow = "Debit")).map Txn.amount).sum
        ∧ total_credits df = ((df.filter (fun t => t.flow = "Credit")).map Txn.amount).sum
        ∧ net_cash_flow df = total_credits df - total_debits df)
    ∧ (∃ ts, load_transactions [("Food", ["coffee shop"])]
          [⟨"Coffee Shop", "4.50", "01 Jan 2024", "Debit"⟩,
           ⟨"Employer", "2000.00", "01 Jan 2024", "Credit"⟩] = some ts
        ∧ (debitsOf ts).map (fun t => (t.details, t.category)) = [("Coffee Shop", "Food")]
        ∧ total_debits ts = 4.50
        ∧ total_credits ts = 2000.00
        ∧ net_cash_flow ts = 1995.50) := by
  refine ⟨fun df => ⟨rfl, rfl, rfl⟩, ?_⟩
  have h1 : parseFloat (stripCommas "4.50") = some (4.50 : ℚ) := by
    simp only [parseFloat]
    rw [show parseFloatRep (stripCommas "4.50") = some (false, 450, 2) from by decide]
    simp
    norm_num
  have h2 : parseFloat (stripCommas "2000.00") = some (2000.00 : ℚ) := by
    simp only [parseFloat]
    rw [show parseFloatRep (stripCommas "2000.00") = some (false, 200000, 2) from by decide]
    simp
    norm_num
  have htail : parseAll (fun r => parseFloat (stripCommas r.amount))
      [(⟨"Employer", "2000.00", "01 Jan 2024", "Credit"⟩ : RawRow)]
      = some [(2000.00 : ℚ)] := by
    show (match parseFloat (stripCommas "2000.00"), (some [] : Option (List ℚ)) with
      | some b, some bs => some (b :: bs) | _, _ => none) = some [(2000.00 : ℚ)]
    rw [h2]
  have hall : parseAll (fun r => parseFloat (stripCommas r.amount))
      [(⟨"Coffee Shop", "4.50", "01 Jan 2024", "Debit"⟩ : RawRow),
       ⟨"Employer", "2000.00", "01 Jan 2024", "Credit"⟩]
      = some [(4.50 : ℚ), (2000.00 : ℚ)] := by
    show (match parseFloat (stripCommas "4.50"),
        parseAll (fun r => parseFloat (stripCommas r.amount))
          [(⟨"Employer", "2000.00", "01 Jan 2024", "Credit"⟩ : RawRow)] with
      | some b, some bs => some (b :: bs) | _, _ => none) = _
    rw [h1, htail]
  have hts : load_transactions [("Food", ["coffee shop"])]
      [⟨"Coffee Shop", "4.50", "01 Jan 2024", "Debit"⟩,
       ⟨"Employer", "2000.00", "01 Jan 2024", "Credit"⟩]
      = some [⟨⟨2024, 1, 1⟩, "Coffee Shop", (4.50 : ℚ), "Debit", "Food"⟩,
              ⟨⟨2024, 1, 1⟩, "Employer", (2000.00 : ℚ), "Credit", "Uncategorized"⟩] := by
    rw [load_transactions_eq, hall]
    rfl
  refine ⟨_, hts, rfl, ?_, ?_, ?_⟩
  · show total_debits [⟨⟨2024, 1, 1⟩, "Coffee Shop", (4.50 : ℚ), "Debit", "Food"⟩,
      ⟨⟨2024, 1, 1⟩, "Employer", (2000.00 : ℚ), "Credit", "Uncategorized"⟩] = 4.50
    unfold total_debits
    rw [show debitsOf [⟨⟨2024, 1, 1⟩, "Coffee Shop", (4.50 : ℚ), "Debit", "Food"⟩,
        ⟨⟨2024, 1, 1⟩, "Employer", (2000.00 : ℚ), "Credit", "Uncategorized"⟩]
      = [⟨⟨2024, 1, 1⟩, "Coffee Shop", (4.50 : ℚ), "Debit", "Food"⟩] from rfl]
    simp
  · show total_credits [⟨⟨2024, 1, 1⟩, "Coffee Shop", (4.50 : ℚ), "Debit", "Food"⟩,
      ⟨⟨2024, 1, 1⟩, "Employer", (2000.00 : ℚ), "Credit", "Uncategorized"⟩] = 2000.00
    unfold total_credits
    rw [show creditsOf [⟨⟨2024, 1, 1⟩, "Coffee Shop", (4.50 : ℚ), "Debit", "Food"⟩,
        ⟨⟨2024, 1, 1⟩, "Employer", (2000.00 : ℚ), "Credit", "Uncategorized"⟩]
      = [⟨⟨2024, 1, 1⟩, "Employer", (2000.00 : ℚ), "Credit", "Uncategorized"⟩] from rfl]
    simp
  · show net_cash_flow [⟨⟨2024, 1, 1⟩, "Coffee Shop", (4.50 : ℚ), "Debit", "Food"⟩,
      ⟨⟨2024, 1, 1⟩, "Employer", (2000.00 : ℚ), "Credit", "Uncategorized"⟩] = 1995.50
    unfold net_cash_flow total_credits total_debits
    rw [show creditsOf [⟨⟨2024, 1, 1⟩, "Coffee Shop", (4.50 : ℚ), "Debit", "Food"⟩,
        ⟨⟨2024, 1, 1⟩, "Employer", (2000.00 : ℚ), "Credit", "Uncategorized"⟩]
      = [⟨⟨2024, 1, 1⟩, "Employer", (2000.00 : ℚ), "Credit", "Uncategorized"⟩] from rfl]
    rw [show debitsOf [⟨⟨2024, 1, 1⟩, "Coffee Shop", (4.50 : ℚ), "Debit", "Food"⟩,
        ⟨⟨2024, 1, 1⟩, "Employer", (2000.00 : ℚ), "Credit", "Uncategorized"⟩]
      = [⟨⟨2024, 1, 1⟩, "Coffee Shop", (4.50 : ℚ), "Debit", "Food"⟩] from rfl]
    simp
    norm_num

theorem applyChanges_nil_edited (s : Store) (ts : List Txn) :
    applyChanges s ts [] = some (s, ts) := by
  cases ts <;> rfl

theorem applyChanges_nil_stored (s : Store) (e : String × String)
    (es : List (String × String)) : applyChanges s [] (e :: es) = none := rfl

theorem applyChanges_cons (s : Store) (t : Txn) (ts : List Txn) (e : String × String)
    (es : List (String × String)) :
    applyChanges s (t :: ts) (e :: es)
      = if e.2 = t.category then
          match applyChanges s ts es with
          | none => none
          | some r => some (r.1, t :: r.2)
        else
          match add_keyword_to_category s e.2 e.1 with
          | none => none
          | some r1 =>
            match applyChanges r1.1 ts es with
            | none => none
            | some r => some (r.1, { t with category := e.2 } :: r.2) := rfl

theorem pairFst {α β : Type} {a c : α} {b d : β} (h : (a, b) = (c, d)) : a = c :=
  congrArg Prod.fst h

theorem pairSnd {α β : Type} {a c : α} {b d : β} (h : (a, b) = (c, d)) : b = d :=
  congrArg Prod.snd h

theorem add_keyword_some_inv (s : Store) (c k : String) (res : Store × Bool)
    (h : add_keyword_to_category s c k = some res) :
    ∃ kws, lookupCat s.categories c = some kws
      ∧ ((pyStrip k ≠ "" ∧ ¬ kws.contains (pyStrip k)
            ∧ res = (save_categories
                { s with categories := setCat s.categories c (kws ++ [pyStrip k]) }, true))
        ∨ ((pyStrip k = "" ∨ kws.contains (pyStrip k)) ∧ res = (s, false))) := by
  cases hl : lookupCat s.categories c with
  | none =>
    simp only [add_keyword_to_category] at h
    rw [hl] at h
    exact Option.noConfusion h
  | some kws =>
    rw [add_keyword_unfold s c k kws hl] at h
    by_cases hc : pyStrip k ≠ "" ∧ ¬ kws.contains (pyStrip k)
    · rw [if_pos hc] at h
      exact ⟨kws, rfl, Or.inl ⟨hc.1, hc.2, (Option.some.inj h).symm⟩⟩
    · rw [if_neg hc] at h
      refine ⟨kws, rfl, Or.inr ⟨?_, (Option.some.inj h).symm⟩⟩
      rcases not_and_or.mp hc with h1 | h2
      · exact Or.inl (of_not_not h1)
      · exact Or.inr (of_not_not h2)

theorem add_keyword_adds (s : Store) (c k : String) (s₂ : Store) (b : Bool)
    (h : add_keyword_to_category s c k = some (s₂, b)) (hne : pyStrip k ≠ "") :
    ((lookupCat s₂.categories c).getD []).contains (pyStrip k) := by
  obtain ⟨kws, hl, hcase | hcase⟩ := add_keyword_some_inv s c k (s₂, b) h
  · have hs : s₂ = save_categories
        { s with categories := setCat s.categories c (kws ++ [pyStrip k]) } :=
      pairFst hcase.2.2
    rw [hs]
    rw [show (save_categories
        { s with categories := setCat s.categories c (kws ++ [pyStrip k]) }).categories
      = setCat s.categories c (kws ++ [pyStrip k]) from rfl]
    rw [lookupCat_setCat_self s.categories c _ (by rw [hl]; rfl)]
    exact List.elem_iff.mpr (List.mem_append_right _ (List.mem_singleton.mpr rfl))
  · obtain ⟨hd, heq⟩ := hcase
    have hs2 : s₂ = s := pairFst heq
    rcases hd with hd | hd
    · exact absurd hd hne
    · rw [hs2, hl]
      exact hd

theorem add_keyword_mono (s : Store) (c' k' c kw : String) (s₂ : Store) (b : Bool)
    (h : add_keyword_to_category s c' k' = some (s₂, b))
    (hm : ((lookupCat s.categories c).getD []).contains kw) :
    ((lookupCat s₂.categories c).getD []).contains kw := by
  obtain ⟨kws, hl, hcase | hcase⟩ := add_keyword_some_inv s c' k' (s₂, b) h
  · have hs : s₂.categories = setCat s.categories c' (kws ++ [pyStrip k']) := by
      rw [pairFst hcase.2.2]
      rfl
    rw [hs]
    by_cases hcc : c = c'
    · rw [hcc] at hm ⊢
      rw [lookupCat_setCat_self s.categories c' _ (by rw [hl]; rfl)]
      rw [hl] at hm
      exact List.elem_iff.mpr (List.mem_append_left _ (List.elem_iff.mp hm))
    · rw [lookupCat_setCat_ne s.categories c' c _ hcc]
      exact hm
  · rw [pairFst hcase.2]
    exact hm

theorem applyChanges_mono (c kw : String) :
    ∀ (edited : List (String × String)) (s : Store) (stored : List Txn)
      (s' : Store) (stored' : List Txn),
      applyChanges s stored edited = some (s', stored') →
      ((lookupCat s.categories c).getD []).contains kw →
      ((lookupCat s'.categories c).getD []).contains kw := by
  intro edited
  induction edited with
  | nil =>
    intro s stored s' stored' h hm
    rw [applyChanges_nil_edited] at h
    rw [← pairFst (Option.some.inj h)]
    exact hm
  | cons e es ih =>
    intro s stored s' stored' h hm
    cases stored with
    | nil => rw [applyChanges_nil_stored] at h; exact Option.noConfusion h
    | cons t ts =>
      rw [applyChanges_cons] at h
      by_cases he : e.2 = t.category
      · rw [if_pos he] at h
        cases hrec : applyChanges s ts es with
        | none => rw [hrec] at h; exact Option.noConfusion h
        | some r =>
          rw [hrec] at h
          rw [← pairFst (Option.some.inj h)]
          exact ih s ts r.1 r.2 (by rw [hrec]) hm
      · rw [if_neg he] at h
        cases hadd : add_keyword_to_category s e.2 e.1 with
        | none => rw [hadd] at h; exact Option.noConfusion h
        | some r1 =>
          rw [hadd] at h
          have h2 : (match applyChanges r1.1 ts es with
              | none => none
              | some r => some (r.1, { t with category := e.2 } :: r.2)) = some (s', stored') := h
          cases hrec : applyChanges r1.1 ts es with
          | none => rw [hrec] at h2; exact Option.noConfusion h2
          | some r =>
            rw [hrec] at h2
            rw [← pairFst (Option.some.inj h2)]
            exact ih r1.1 ts r.1 r.2 (by rw [hrec])
              (add_keyword_mono s e.2 e.1 c kw r1.1 r1.2 (by rw [hadd]) hm)

theorem applyChanges_shape :
    ∀ (edited : List (String × String)) (s : Store) (stored : List Txn)
      (s' : Store) (stored' : List Txn),
      applyChanges s stored edited = some (s', stored') →
      stored'.map (fun t => (t.date, t.details, t.amount, t.flow))
          = stored.map (fun t => (t.date, t.details, t.amount, t.flow))
      ∧ stored'.map Txn.category
          = edited.map Prod.snd ++ (stored.drop edited.length).map Txn.category
      ∧ edited.length ≤ stored.length := by
  intro edited
  induction edited with
  | nil =>
    intro s stored s' stored' h
    rw [applyChanges_nil_edited] at h
    rw [← pairSnd (Option.some.inj h)]
    exact ⟨rfl, rfl, Nat.zero_le _⟩
  | cons e es ih =>
    intro s stored s' stored' h
    cases stored with
    | nil => rw [applyChanges_nil_stored] at h; exact Option.noConfusion h
    | cons t ts =>
      rw [applyChanges_cons] at h
      by_cases he : e.2 = t.category
      · rw [if_pos he] at h
        cases hrec : applyChanges s ts es with
        | none => rw [hrec] at h; exact Option.noConfusion h
        | some r =>
          rw [hrec] at h
          obtain ⟨f1, f2, f3⟩ := ih s ts r.1 r.2 (by rw [hrec])
          rw [← pairSnd (Option.some.inj h)]
          refine ⟨?_, ?_, Nat.succ_le_succ f3⟩
          · show (t :: r.2).map _ = (t :: ts).map _
            rw [List.map_cons, List.map_cons, f1]
          · show t.category :: r.2.map Txn.category
              = e.2 :: (es.map Prod.snd ++ (ts.drop es.length).map Txn.category)
            rw [f2, he]
      · rw [if_neg he] at h
        cases hadd : add_keyword_to_category s e.2 e.1 with
        | none => rw [hadd] at h; exact Option.noConfusion h
        | some r1 =>
          rw [hadd] at h
          have h2 : (match applyChanges r1.1 ts es with
              | none => none
              | some r => some (r.1, { t with category := e.2 } :: r.2)) = some (s', stored') := h
          cases hrec : applyChanges r1.1 ts es with
          | none => rw [hrec] at h2; exact Option.noConfusion h2
          | some r =>
            rw [hrec] at h2
            obtain ⟨f1, f2, f3⟩ := ih r1.1 ts r.1 r.2 (by rw [hrec])
            rw [← pairSnd (Option.some.inj h2)]
            refine ⟨?_, ?_, Nat.succ_le_succ f3⟩
            · show ({ t with category := e.2 } :: r.2).map _ = (t :: ts).map _
              rw [List.map_cons, List.map_cons, f1]
            · show e.2 :: r.2.map Txn.category
                = e.2 :: (es.map Prod.snd ++ (ts.drop es.length).map Txn.category)
              rw [f2]

theorem applyChanges_no_change :
    ∀ (edited : List (String × String)) (s : Store) (stored : List Txn),
      edited.length ≤ stored.length →
      (∀ p ∈ stored.zip edited, p.2.2 = p.1.category) →
      applyChanges s stored edited = some (s, stored) := by
  intro edited
  induction edited with
  | nil => intro s stored _ _; exact applyChanges_nil_edited s stored
  | cons e es ih =>
    intro s stored hlen hall
    cases stored with
    | nil => simp at hlen
    | cons t ts =>
      rw [applyChanges_cons]
      have he : e.2 = t.category :=
        hall (t, e) (by rw [List.zip_cons_cons]; exact List.mem_cons_self _ _)
      rw [if_pos he]
      rw [ih s ts (by simpa using hlen)
        (fun p hp => hall p (by rw [List.zip_cons_cons]; exact List.mem_cons_of_mem _ hp))]

theorem applyChanges_teaches :
    ∀ (edited : List (String × String)) (s : Store) (stored : List Txn)
      (s' : Store) (stored' : List Txn),
      applyChanges s stored edited = some (s', stored') →
      ∀ (i : ℕ) (t : Txn) (e : String × String),
        stored[i]? = some t → edited[i]? = some e → e.2 ≠ t.category → pyStrip e.1 ≠ "" →
        ((lookupCat s'.categories e.2).getD []).contains (pyStrip e.1) := by
  intro edited
  induction edited with
  | nil =>
    intro s stored s' stored' h i t e hti hei hne hstrip
    exact Option.noConfusion hei
  | cons e0 es ih =>
    intro s stored s' stored' h i t e hti hei hne hstrip
    cases stored with
    | nil => rw [applyChanges_nil_stored] at h; exact Option.noConfusion h
    | cons t0 ts =>
      rw [applyChanges_cons] at h
      cases i with
      | zero =>
        rw [List.getElem?_cons_zero] at hti hei
        cases Option.some.inj hti
        cases Option.some.inj hei
        rw [if_neg (fun hh => hne hh)] at h
        cases hadd : add_keyword_to_category s e0.2 e0.1 with
        | none => rw [hadd] at h; exact Option.noConfusion h
        | some r1 =>
          rw [hadd] at h
          have h2 : (match applyChanges r1.1 ts es with
              | none => none
              | some r => some (r.1, { t with category := e0.2 } :: r.2))
              = some (s', stored') := h
          cases hrec : applyChanges r1.1 ts es with
          | none => rw [hrec] at h2; exact Option.noConfusion h2
          | some r =>
            rw [hrec] at h2
            rw [← pairFst (Option.some.inj h2)]
            exact applyChanges_mono e0.2 (pyStrip e0.1) es r1.1 ts r.1 r.2 (by rw [hrec])
              (add_keyword_adds s e0.2 e0.1 r1.1 r1.2 (by rw [hadd]) hstrip)
      | succ n =>
        rw [List.getElem?_cons_succ] at hti hei
        by_cases he : e0.2 = t0.category
        · rw [if_pos he] at h
          cases hrec : applyChanges s ts es with
          | none => rw [hrec] at h; exact Option.noConfusion h
          | some r =>
            rw [hrec] at h
            rw [← pairFst (Option.some.inj h)]
            exact ih s ts r.1 r.2 (by rw [hrec]) n t e hti hei hne hstrip
        · rw [if_neg he] at h
          cases hadd : add_keyword_to_category s e0.2 e0.1 with
          | none => rw [hadd] at h; exact Option.noConfusion h
          | some r1 =>
            rw [hadd] at h
            have h2 : (match applyChanges r1.1 ts es with
                | none => none
                | some r => some (r.1, { t0 with category := e0.2 } :: r.2))
                = some (s', stored') := h
            cases hrec : applyChanges r1.1 ts es with
            | none => rw [hrec] at h2; exact Option.noConfusion h2
            | some r =>
              rw [hrec] at h2
              rw [← pairFst (Option.some.inj h2)]
              exact ih r1.1 ts r.1 r.2 (by rw [hrec]) n t e hti hei hne hstrip

/-- C3 counterexample: applying the "Local Diner" to "Food" edit stores the
keyword "Local Diner" verbatim (the handler only strips, it does not
lowercase), so afterward the "Food" keyword list is ["Local Diner"], which
does not contain the string "local diner" claimed by the spec sentence. -/
theorem apply_changes_lowercase_counterexample :
    (applyChanges
        ⟨[("Uncategorized", []), ("Food", [])], some [("Uncategorized", []), ("Food", [])]⟩
        [⟨⟨2024, 1, 2⟩, "Local Diner", 10, "Debit", "Uncategorized"⟩]
        [("Local Diner", "Food")]).map
      (fun r => (lookupCat r.1.categories "Food", r.2.map Txn.category))
      = some (some ["Local Diner"], ["Food"])
    ∧ ¬ (["Local Diner"] : List String).contains "local diner" := by
  constructor
  · rfl
  · decide

/-- C3 (amended): on "Apply Changes", every row keeps its Date, Details,
Amount and Debit/Credit values; the stored categories become the edited
categories (rows whose edited category equals the stored one included,
trivially); for every row whose edited category differs from the stored
one, the row's stripped details string — stored verbatim, in its original
case — is afterward in the new category's keyword list; and when no row's
category differs, neither the store nor the transactions change.  In
particular the "Local Diner" to "Food" edit stores keyword "Local Diner"
(which normalizes to "local diner" for future matching) and sets the row's
category to "Food" (see the witness). -/
theorem apply_changes_spec (s : Store) (stored : List Txn) (edited : List (String × String))
    (s' : Store) (stored' : List Txn)
    (h : applyChanges s stored edited = some (s', stored')) :
    stored'.map (fun t => (t.date, t.details, t.amount, t.flow))
        = stored.map (fun t => (t.date, t.details, t.amount, t.flow))
    ∧ stored'.map Txn.category
        = edited.map Prod.snd ++ (stored.drop edited.length).map Txn.category
    ∧ (∀ (i : ℕ) (t : Txn) (e : String × String),
        stored[i]? = some t → edited[i]? = some e → e.2 ≠ t.category → pyStrip e.1 ≠ "" →
        ((lookupCat s'.categories e.2).getD []).contains (pyStrip e.1))
    ∧ ((∀ p ∈ stored.zip edited, p.2.2 = p.1.category) → s' = s ∧ stored' = stored) := by
  obtain ⟨f1, f2, f3⟩ := applyChanges_shape edited s stored s' stored' h
  refine ⟨f1, f2, applyChanges_teaches edited s stored s' stored' h, ?_⟩
  intro hall
  rw [applyChanges_no_change edited s stored f3 hall] at h
  exact ⟨(pairFst (Option.some.inj h)).symm, (pairSnd (Option.some.inj h)).symm⟩

theorem apply_changes_spec_witness :
    ∃ (s' : Store) (stored' : List Txn),
      applyChanges
          ⟨[("Uncategorized", []), ("Food", [])], some [("Uncategorized", []), ("Food", [])]⟩
          [⟨⟨2024, 1, 2⟩, "Local Diner", 10, "Debit", "Uncategorized"⟩]
          [("Local Diner", "Food")] = some (s', stored')
        ∧ stored'.map Txn.category = ["Food"]
        ∧ ((lookupCat s'.categories "Food").getD []).contains "Local Diner" := by
  have h : applyChanges
      ⟨[("Uncategorized", []), ("Food", [])], some [("Uncategorized", []), ("Food", [])]⟩
      [⟨⟨2024, 1, 2⟩, "Local Diner", 10, "Debit", "Uncategorized"⟩]
      [("Local Diner", "Food")]
      = some (⟨[("Uncategorized", []), ("Food", ["Local Diner"])],
                some [("Uncategorized", []), ("Food", ["Local Diner"])]⟩,
              [⟨⟨2024, 1, 2⟩, "Local Diner", 10, "Debit", "Food"⟩]) := rfl
  refine ⟨_, _, h, ?_, ?_⟩
  · have h2 := (apply_changes_spec _ _ _ _ _ h).2.1
    rw [h2]
    rfl
  · have h3 := (apply_changes_spec _ _ _ _ _ h).2.2.1 0
      ⟨⟨2024, 1, 2⟩, "Local Diner", 10, "Debit", "Uncategorized"⟩ ("Local Diner", "Food")
      rfl rfl (by decide) (by decide)
    exact h3
